import Mathlib

/-!
Verification development for the Dali-Distiller schema converters.

Python strings are modelled as lists of characters (`Str`); the regular
expressions used by the converters are modelled by explicit scanners whose
behaviour matches the Python `re` engine on the patterns in question
(documented at each definition).  All inputs handled by the converters are
ASCII, and the character-class models below are faithful on that range.
-/

set_option linter.unusedVariables false

namespace Dali

/-- Python strings are modelled as lists of characters. -/
abbrev Str := List Char

/-- Embed a Lean string literal as a model string. -/
def str (s : String) : Str := s.data

/-- Python whitespace class `\s` on the ASCII range: space, tab, newline,
carriage return, vertical tab, form feed. -/
def pySpace (c : Char) : Bool :=
  c == ' ' || c == '\t' || c == '\n' || c == '\r' || c == '\x0b' || c == '\x0c'

/-- Python `s.strip()`: drop leading and trailing whitespace. -/
def pyStrip (s : Str) : Str :=
  ((s.dropWhile pySpace).reverse.dropWhile pySpace).reverse

/-- Python `s.split(sep)` for a one-character separator: splits at every
occurrence and keeps empty pieces. -/
def pySplit (sep : Char) : Str → List Str
  | [] => [[]]
  | c :: cs =>
    match pySplit sep cs with
    | [] => [[]]
    | h :: t => if c == sep then [] :: h :: t else (c :: h) :: t

/-- Boolean test: `n` is a leading piece of the second argument. -/
def isPrefixSub : Str → Str → Bool
  | [], _ => true
  | _ :: _, [] => false
  | a :: as, b :: bs => a == b && isPrefixSub as bs

/-- Python `n in h` on strings: `n` occurs contiguously inside `h`. -/
def isSubstr (n : Str) : Str → Bool
  | [] => isPrefixSub n []
  | h@(_ :: hs) => isPrefixSub n h || isSubstr n hs

/-- Python `s.startswith("@")`. -/
def startsAt : Str → Bool
  | [] => false
  | c :: _ => c == '@'

/-- Python `s.startswith(p)` for a general string `p`. -/
def startsWithS (p s : Str) : Bool := isPrefixSub p s

/-- ASCII case-conversion table behind Python `str.lower()`. -/
def lowerTable : List (Char × Char) :=
  [('A', 'a'), ('B', 'b'), ('C', 'c'), ('D', 'd'), ('E', 'e'), ('F', 'f'),
   ('G', 'g'), ('H', 'h'), ('I', 'i'), ('J', 'j'), ('K', 'k'), ('L', 'l'),
   ('M', 'm'), ('N', 'n'), ('O', 'o'), ('P', 'p'), ('Q', 'q'), ('R', 'r'),
   ('S', 's'), ('T', 't'), ('U', 'u'), ('V', 'v'), ('W', 'w'), ('X', 'x'),
   ('Y', 'y'), ('Z', 'z')]

/-- Python `str.lower()` on one ASCII character. -/
def pyLowerChar (c : Char) : Char :=
  match lowerTable.find? (fun p => p.1 == c) with
  | some p => p.2
  | none => c

/-- Python `str.lower()`. -/
def pyLower (s : Str) : Str := s.map pyLowerChar

/-! ### TypeCompressor (converter_v3.compress_type / converter_final._compress_type) -/

/-- The 16-entry type table `self.type_map` shared by `UltraCompressedConverter`
and `DualSchemaConverter`. -/
def typeMap : List (Str × Str) :=
  [(str "array", str "a"), (str "string", str "s"), (str "number", str "n"),
   (str "bool", str "b"), (str "object", str "o"), (str "any", str "*"),
   (str "duration", str "d"), (str "datetime", str "t"), (str "record", str "r"),
   (str "geometry", str "g"), (str "uuid", str "u"), (str "int", str "i"),
   (str "float", str "f"), (str "value", str "v"), (str "null", str "0"),
   (str "bytes", str "y")]

/-- `self.type_map.get(key)`: dictionary lookup. -/
def lookupType (t : Str) : Option Str :=
  (typeMap.find? (fun p => p.1 == t)).map (fun p => p.2)

/-- The group captured by the pattern part "(.+)>" at a fixed position: the
run of characters up to the next newline is scanned (Python `.` does not
cross newlines), the group greedily extends to the last -- ">" -- in that run,
and must be non-empty. -/
def greedyGroup (rest : Str) : Option Str :=
  match ((rest.takeWhile (fun c => c != '\n')).reverse).dropWhile (fun c => c != '>') with
  | [] => none
  | _ :: g => if g.isEmpty then none else some g.reverse

/-- Model of `re.search(lit ++ "(.+)>", t)` returning group 1, for a literal
`lit` such as "array<": scan left to right; at the first position where the
literal matches and a greedy non-empty group followed by ">" can be closed,
return that group. -/
def searchParam (lit : Str) : Str → Option Str
  | [] => none
  | t@(_ :: rest) =>
    if isPrefixSub lit t then
      match greedyGroup (t.drop lit.length) with
      | some g => some g
      | none => searchParam lit rest
    else searchParam lit rest

/-- The "array<...>" branch of `compress_type`: guarded by `startswith`,
then the regex search. -/
def arrayInner (tl : Str) : Option Str :=
  if startsWithS (str "array<") tl then searchParam (str "array<") tl else none

/-- The "option<...>" branch of `compress_type`. -/
def optionInner (tl : Str) : Option Str :=
  if startsWithS (str "option<") tl then searchParam (str "option<") tl else none

/-- Fuelled implementation of `compress_type`.  The fuel is an upper bound on
the recursion depth (each recursive call is on a strictly shorter string), so
with fuel above the length of the argument it computes exactly the Python
recursion; `compress_type` below supplies such a fuel. -/
def ctFuel : Nat → Str → Str
  | 0, _ => str "*"
  | n + 1, t =>
    if t.isEmpty then str "*" else
    match arrayInner (pyLower t) with
    | some inner => str "a" ++ ctFuel n inner
    | none =>
      match optionInner (pyLower t) with
      | some inner => str "?" ++ ctFuel n inner
      | none => (lookupType (pyLower t)).getD (str "*")

/-- `compress_type` of converter_v3 (identical to `_compress_type` of
converter_final): empty string gives "*"; otherwise lowercase, handle the
two parametrized forms recursively, else look the string up in the table,
defaulting to "*". -/
def compress_type (t : Str) : Str := ctFuel (t.length + 1) t

/-! ### Regex scanners shared by the converters

Word characters for `\w` and `\b` (ASCII range). -/

def isWordChar (c : Char) : Bool := c.isAlpha || c.isDigit || c == '_'

/-- Maximal runs of word characters of a line, in order; `cur` accumulates the
current run reversed.  A pattern of the shape `\b[A-Z]...\b` can only match a
whole such run (word boundaries exist only at run edges), so `re.findall` for
those patterns is a filter over these runs. -/
def wordRunsAux (cur : Str) : Str → List Str
  | [] => if cur.isEmpty then [] else [cur.reverse]
  | c :: cs =>
    if isWordChar c then wordRunsAux (c :: cur) cs
    else if cur.isEmpty then wordRunsAux [] cs
    else cur.reverse :: wordRunsAux [] cs

def wordRuns (s : Str) : List Str := wordRunsAux [] s

def isUpperAZ (c : Char) : Bool := c.isUpper

/-- Model of `re.findall(r"\b[A-Z][A-Z]+\b", line)` (an uppercase run of
length at least two delimited by word boundaries): the maximal word runs
consisting solely of uppercase letters and of length at least 2. -/
def findUpper2 (line : Str) : List Str :=
  (wordRuns line).filter (fun w => w.all isUpperAZ && decide (2 ≤ w.length))

/-- Model of `re.findall(r"\b([A-Z_]+)\b", line)` used by converter_v2 and
converter_final: the maximal word runs consisting solely of uppercase letters
and underscores. -/
def findUpperUnd (line : Str) : List Str :=
  (wordRuns line).filter (fun w => w.all (fun c => isUpperAZ c || c == '_'))

/-- Model of `re.findall(r"@(\w+)", line)`: each `@` followed by a non-empty
word run yields that run; scanning resumes after the run.  The state holds
the reversed run collected after a pending `@`. -/
def findVarsAux : Option Str → Str → List Str
  | none, [] => []
  | some acc, [] => if acc.isEmpty then [] else [acc.reverse]
  | some acc, c :: cs =>
    if isWordChar c then findVarsAux (some (c :: acc)) cs
    else
      let rest := if c == '@' then findVarsAux (some []) cs else findVarsAux none cs
      if acc.isEmpty then rest else acc.reverse :: rest
  | none, c :: cs => if c == '@' then findVarsAux (some []) cs else findVarsAux none cs

def findVars (s : Str) : List Str := findVarsAux none s

/-- The group of one bracketed-span match of converter.py's pattern
(an opening bracket, greedy whitespace, a non-empty run of non-bracket
characters, whitespace, a closing bracket) given the raw content `c` between
the brackets: the greedy leading `\s*` eats the leading whitespace but must
leave at least one character for the group. -/
def spanGroup (c : Str) : Str :=
  c.drop (min (c.takeWhile pySpace).length (c.length - 1))

/-- Non-overlapping left-to-right matches of converter.py's optional-block
pattern.  State: `none` = scanning for an opening bracket; `some acc` = inside
a candidate span with reversed content `acc` (content may not contain either
bracket; on a nested opening bracket the candidate restarts there, mirroring
the engine advancing past a failed start position). -/
def findSpansAux : Option Str → Str → List Str
  | none, [] => []
  | none, '[' :: cs => findSpansAux (some []) cs
  | none, _ :: cs => findSpansAux none cs
  | some _, [] => []
  | some acc, ']' :: cs =>
    if acc.isEmpty then findSpansAux none cs
    else spanGroup acc.reverse :: findSpansAux none cs
  | some _, '[' :: cs => findSpansAux (some []) cs
  | some acc, c :: cs => findSpansAux (some (c :: acc)) cs

def findSpans (s : Str) : List Str := findSpansAux none s

/-- Non-overlapping matches of converter_v2's optional pattern (an opening
bracket, then a non-empty run of non-closing-bracket characters, then a
closing bracket): content may contain opening brackets. -/
def findSpansV2Aux : Option Str → Str → List Str
  | none, [] => []
  | none, '[' :: cs => findSpansV2Aux (some []) cs
  | none, _ :: cs => findSpansV2Aux none cs
  | some _, [] => []
  | some acc, ']' :: cs =>
    if acc.isEmpty then findSpansV2Aux none cs
    else acc.reverse :: findSpansV2Aux none cs
  | some acc, c :: cs => findSpansV2Aux (some (c :: acc)) cs

def findSpansV2 (s : Str) : List Str := findSpansV2Aux none s

/-- `re.sub` deleting every lazy bracketed span (converter_final's
`_extract_pattern`): a span runs from an opening bracket to the first closing
bracket with no newline in between; content may contain opening brackets.
On failure (newline or end of input first) the pending characters are kept
verbatim. -/
def subBracketsAux : Option Str → Str → Str
  | none, [] => []
  | none, '[' :: cs => subBracketsAux (some ['[']) cs
  | none, c :: cs => c :: subBracketsAux none cs
  | some acc, [] => acc.reverse
  | some _, ']' :: cs => subBracketsAux none cs
  | some acc, '\n' :: cs => acc.reverse ++ '\n' :: subBracketsAux none cs
  | some acc, c :: cs => subBracketsAux (some (c :: acc)) cs

def subBrackets (s : Str) : Str := subBracketsAux none s

/-- `re.sub` replacing every `@`-variable (an `@` followed by a non-empty word
run) by the placeholder "\x3cvar>".  The flag records that the tail of a
matched run is being skipped. -/
def subVarsAux : Bool → Str → Str
  | _, [] => []
  | skip, c :: cs =>
    if skip && isWordChar c then subVarsAux true cs
    else if c == '@' then
      match cs with
      | [] => ['@']
      | d :: _ =>
        if isWordChar d then str "<var>" ++ subVarsAux true cs
        else '@' :: subVarsAux false cs
    else c :: subVarsAux false cs

def subVars (s : Str) : Str := subVarsAux false s

/-- Python `s.split()` with no argument: maximal runs of non-whitespace. -/
def pyWordsAux (cur : Str) : Str → List Str
  | [] => if cur.isEmpty then [] else [cur.reverse]
  | c :: cs =>
    if pySpace c then
      if cur.isEmpty then pyWordsAux [] cs else cur.reverse :: pyWordsAux [] cs
    else pyWordsAux (c :: cur) cs

def pyWords (s : Str) : List Str := pyWordsAux [] s

/-- `sep.join(pieces)` for a one-character separator. -/
def joinSep (sep : Char) : List Str → Str
  | [] => []
  | [p] => p
  | p :: ps => p ++ sep :: joinSep sep ps

/-! ### converter.py : BNFToYAMLConverter -/

/-- The result dictionary of `parse_bnf_line`; `none` models an absent key. -/
structure ParsedLine where
  optional_choices : Option (List Str) := none
  optional : Option Str := none
  vars : Option (List Str) := none
  keywords : Option (List Str) := none
deriving DecidableEq, Repr

/-- The choice list computed for one bracketed span containing a pipe:
split on the pipe, strip each piece, keep the non-empty pieces that do not
start with an `@`. -/
def spanChoices (m : Str) : List Str :=
  ((pySplit '|' m).map pyStrip).filter (fun c => !c.isEmpty && !startsAt c)

/-- One iteration of the `for match in optional_matches` loop of
`parse_bnf_line`: a span with a pipe records its (non-empty) choice list,
a span without one records the stripped span as a single optional token
unless it starts with an `@`; dictionary keys are overwritten. -/
def applySpan (r : ParsedLine) (m : Str) : ParsedLine :=
  if m.contains '|' then
    let choices := spanChoices m
    if choices.isEmpty then r else { r with optional_choices := some choices }
  else if startsAt m then r else { r with optional := some (pyStrip m) }

/-- Whether the result dictionary is non-empty (Python truthiness of `parsed`). -/
def ParsedLine.nonEmpty (p : ParsedLine) : Bool :=
  p.optional_choices.isSome || p.optional.isSome || p.vars.isSome || p.keywords.isSome

/-- converter.py `parse_bnf_line`: strip the line; an empty line yields the
empty dictionary; otherwise collect optional spans, variables, and the
uppercase keywords not occurring inside any of the line's spans. -/
def parse_bnf_line (line0 : Str) : ParsedLine :=
  let line := pyStrip line0
  if line.isEmpty then {} else
  let spans := findSpans line
  let r := spans.foldl applySpan {}
  let vars := findVars line
  let r := if vars.isEmpty then r else { r with vars := some vars }
  let kws := findUpper2 line
  let filtered := kws.filter (fun k => !(spans.any (fun opt => isSubstr k opt)))
  if filtered.isEmpty then r else { r with keywords := some filtered }

/-- Lexicographic comparison of Python strings by code point. -/
def strLe : Str → Str → Bool
  | [], _ => true
  | _ :: _, [] => false
  | a :: as, b :: bs => if a == b then strLe as bs else decide (a < b)

/-- Insertion sort: the model of Python `sorted` on a list of strings. -/
def insertSorted (x : Str) : List Str → List Str
  | [] => [x]
  | y :: ys => if strLe x y then x :: y :: ys else y :: insertSorted x ys

def sortStrs (l : List Str) : List Str := l.foldr insertSorted []

/-- `set.update`: insert the elements of `xs` that are not yet present, in
order; the resulting list is the canonical (insertion-ordered) enumeration of
the set's contents. -/
def insertAll (acc xs : List Str) : List Str :=
  xs.foldl (fun a x => if a.contains x then a else a ++ [x]) acc

/-- `convert_statement_block` output: the `syntax` key keeps the raw block;
an empty list models an absent key (the code only adds non-empty values). -/
structure StatementStructure where
  raw : Str
  vars : List Str := []
  keywords : List Str := []
  optional : List (List Str) := []
deriving DecidableEq, Repr

/-- Optional components contributed by one parsed line, in emission order
(`optional_choices` before `optional`, matching the two `if`s in the code). -/
def optComponents (p : ParsedLine) : List (List Str) :=
  (match p.optional_choices with | some cs => [cs] | none => []) ++
  (match p.optional with | some o => [[o]] | none => [])

/-- converter.py's per-block statement conversion (the source method named
after the raw-block key): parse every line of the block, union variables and
keywords across lines (serialized sorted, as Python `sorted(list(s))`), and
keep optional groups in per-line order. -/
def convert_statement_block (block : Str) : StatementStructure :=
  let parsedLines := ((pySplit '\n' block).map parse_bnf_line).filter ParsedLine.nonEmpty
  let allVars := parsedLines.foldl (fun a p => insertAll a (p.vars.getD [])) []
  let allKws := parsedLines.foldl (fun a p => insertAll a (p.keywords.getD [])) []
  let opts := (parsedLines.map optComponents).flatten
  { raw := block
    vars := sortStrs allVars
    keywords := sortStrs allKws
    optional := opts }

structure Metadata where
  title : Str := []
  description : Str := []
  sidebar_label : Str := []
deriving DecidableEq, Repr

/-- The entry `process_statements` stores for one statement: a single
converted structure when there is exactly one syntax block, otherwise a
`variants` list with one converted structure per block; the metadata is
attached at this (parent) level in both cases. -/
inductive StatementOut where
  | single : StatementStructure → Metadata → StatementOut
  | multi : List StatementStructure → Metadata → StatementOut
deriving DecidableEq, Repr

/-- converter.py `process_statements`, restricted to one statement's
`syntax_blocks` and metadata. -/
def process_statement (blocks : List Str) (md : Metadata) : StatementOut :=
  if blocks.length = 1 then .single (convert_statement_block (blocks.headD [])) md
  else .multi (blocks.map convert_statement_block) md

/-! ### Statement data for converter_v2 / converter_v3 / converter_final

A raw statement entry.  The `stx` field models the `syntax` key (a list of
raw syntax blocks); the empty list models both an absent key and an empty
list, which the three converters treat identically
(`if not stmt_data.get('syntax'): continue`). -/

structure StmtData where
  stx : List Str := []
  title : Str := []
  description : Str := []
deriving DecidableEq, Repr

/-- `_parse_statement_syntax` of converter_v2/converter_final: the stripped
non-empty lines of a block. -/
def parsedLines (s0 : Str) : List Str :=
  ((pySplit '\n' s0).map pyStrip).filter (fun l => !l.isEmpty)

/-- The mathematical contents of the keyword set built by
`_extract_keywords` (converter_v2 / converter_final), enumerated in insertion
order: per stripped line, the `[A-Z_]+` word-boundary matches that do not
start with `@` and have length above 1, added to a set. -/
def extractKeywordsSet (lines : List Str) : List Str :=
  lines.foldl
    (fun a l =>
      insertAll a ((findUpperUnd l).filter (fun m => !startsAt m && decide (1 < m.length)))) []

/-- The contents of the variable set built by `_extract_variables`. -/
def extractVariablesSet (lines : List Str) : List Str :=
  lines.foldl (fun a l => insertAll a (findVars l)) []

/-- The contents of the optional set built by converter_v2's
`_extract_optional_parts`: stripped non-empty bracketed spans. -/
def extractOptionalSet (lines : List Str) : List Str :=
  lines.foldl
    (fun a l =>
      insertAll a (((findSpansV2 l).map pyStrip).filter (fun m => !m.isEmpty))) []

/-- converter_final `_extract_pattern`: delete bracketed spans, replace
`@`-variables by a placeholder, renormalize whitespace, keep the first 100
characters. -/
def extractPattern (s0 : Str) : Str :=
  (joinSep ' ' (pyWords (subVars (subBrackets s0)))).take 100

/-- A full-tier statement entry of converter_final's `create_full_schema`.
The `keywords` and `variables` lists are produced by `list(set)[:10]`: the
runtime enumerates the set in an order that depends on the per-process string
hash salt, modelled by the explicit enumeration function `enum` applied to
the canonical contents of the set. -/
structure FullStmtEntry where
  keywords : List Str
  vars : List Str
  pattern : Str
deriving DecidableEq, Repr

def fullStmtEntry (enum : List Str → List Str) (d : StmtData) : Option FullStmtEntry :=
  match d.stx with
  | [] => none
  | s0 :: _ =>
    some { keywords := (enum (extractKeywordsSet (parsedLines s0))).take 10
           vars := (enum (extractVariablesSet (parsedLines s0))).take 10
           pattern := extractPattern s0 }

/-- An enhanced-tier statement entry of converter_v2's `convert_statements`:
`list(keywords)`, `list(variables)`, `list(optional)`, each an enumeration of
the corresponding set. -/
structure EnhancedStmtEntry where
  keywords : List Str
  vars : List Str
  optional : List Str
deriving DecidableEq, Repr

def enhancedStmtEntry (enum : List Str → List Str) (d : StmtData) :
    Option EnhancedStmtEntry :=
  match d.stx with
  | [] => none
  | s0 :: _ =>
    some { keywords := enum (extractKeywordsSet (parsedLines s0))
           vars := enum (extractVariablesSet (parsedLines s0))
           optional := enum (extractOptionalSet (parsedLines s0)) }

/-- Keyword candidates collected by converter_v3 `compress_statement` and
converter_final `create_compressed_schema` from the first 3 lines of the
first syntax block: per line, the uppercase matches that do not start with
`@`, concatenated in encounter order. -/
def v3Keywords (s0 : Str) : List Str :=
  ((pySplit '\n' s0).take 3).foldl
    (fun a line => a ++ (findUpper2 line).filter (fun w => !startsAt w)) []

/-- The `essential` loop of converter_v3 `compress_statement`: scan the
candidates, appending one that is not yet present while fewer than 3 are
kept. -/
def essentialLoop (ks : List Str) : List Str :=
  ks.foldl (fun ess k => if !ess.contains k && decide (ess.length < 3) then ess ++ [k] else ess) []

/-- converter_v3 `compress_statement`: `None` when there is no syntax block,
else the `k` list of the compressed entry. -/
def compress_statement (d : StmtData) : Option (List Str) :=
  match d.stx with
  | [] => none
  | s0 :: _ => some (essentialLoop (v3Keywords s0))

/-- The `k` list built for one statement by converter_final's
`create_compressed_schema` (the statement is skipped when it has no syntax
block): the first 3 keyword candidates, with no deduplication. -/
def finalCompressedK (d : StmtData) : Option (List Str) :=
  match d.stx with
  | [] => none
  | s0 :: _ => some ((v3Keywords s0).take 3)

/-- Generic association-table lookup with a default, for the abbreviation
dictionaries (`abbreviations.get(name, name[:3])`). -/
def lookupAssoc (tbl : List (Str × Str)) (k : Str) : Option Str :=
  (tbl.find? (fun p => p.1 == k)).map (fun p => p.2)

/-- converter_final `_abbreviate_statement` table (8 entries). -/
def abbreviationsFinal : List (Str × Str) :=
  [(str "select", str "sel"), (str "insert", str "ins"), (str "update", str "upd"),
   (str "delete", str "del"), (str "create", str "cre"), (str "alter", str "alt"),
   (str "define", str "def"), (str "remove", str "rem")]

/-- converter_v3 `_abbreviate_statement` table (16 entries). -/
def abbreviationsV3 : List (Str × Str) :=
  abbreviationsFinal ++
  [(str "relate", str "rel"), (str "return", str "ret"), (str "continue", str "cont"),
   (str "database", str "db"), (str "namespace", str "ns"), (str "function", str "fn"),
   (str "indexes", str "idx"), (str "table", str "tbl")]

/-- `_abbreviate_statement` over a given table: composite paths are
abbreviated segment by segment; a name absent from the table is truncated to
its first 3 characters. -/
def abbreviate (tbl : List (Str × Str)) (name : Str) : Str :=
  if name.contains '/' then
    joinSep '/' ((pySplit '/' name).map (fun p => (lookupAssoc tbl p).getD (p.take 3)))
  else (lookupAssoc tbl name).getD (name.take 3)

/-- One iteration of the statements loop of `create_full_schema`: an entry
with no syntax block is skipped, otherwise its record is appended under the
statement name. -/
def fullStmtStep (enum : List Str → List Str) (acc : List (Str × FullStmtEntry))
    (nd : Str × StmtData) : List (Str × FullStmtEntry) :=
  match fullStmtEntry enum nd.2 with
  | none => acc
  | some e => acc ++ [(nd.1, e)]

/-- One iteration of the statements loop of `create_compressed_schema`. -/
def compressedStmtStep (acc : List (Str × List Str)) (nd : Str × StmtData) :
    List (Str × List Str) :=
  match finalCompressedK nd.2 with
  | none => acc
  | some ks => acc ++ [(abbreviate abbreviationsFinal nd.1, ks)]

/-- One iteration of the statements loop of converter_v2's
`convert_statements` (the intent-router addition sits inside the same loop
body and is skipped together with the entry). -/
def enhancedStmtStep (enum : List Str → List Str)
    (acc : List (Str × EnhancedStmtEntry)) (nd : Str × StmtData) :
    List (Str × EnhancedStmtEntry) :=
  match enhancedStmtEntry enum nd.2 with
  | none => acc
  | some e => acc ++ [(nd.1, e)]

/-- One iteration of the statements loop of converter_v3's `convert_all`:
`compress_statement` returning `None` skips the entry (the returned
dictionary is otherwise always truthy since it always carries the `k` key). -/
def v3StmtStep (acc : List (Str × List Str)) (nd : Str × StmtData) :
    List (Str × List Str) :=
  match compress_statement nd.2 with
  | none => acc
  | some ks => acc ++ [(abbreviate abbreviationsV3 nd.1, ks)]

/-! ### extractor_v2.py : parse_function_signature and converter signature
compression -/

structure Param where
  name : Option Str := none
  type : Str
deriving DecidableEq, Repr

structure FunctionSignature where
  raw : Str
  nspace : Str
  function : Str
  parameters : List Param
  return_type : Option Str
deriving DecidableEq, Repr

/-- `[a-z_]` character class. -/
def isLowerUnd (c : Char) : Bool := c.isLower || c == '_'

/-- extractor_v2 `_split_params`: split at commas that sit at bracket depth
zero, where any of the four opening brackets raises the depth and any of the
four closing brackets lowers it (the depth may go negative); each collected
piece is stripped. -/
def split_params (s : Str) : List Str :=
  let fin := s.foldl
    (fun (st : List Str × Str × Int) c =>
      let (ps, cur, depth) := st
      if c == ',' && depth == 0 then (ps ++ [pyStrip cur.reverse], [], depth)
      else
        let depth :=
          if c == '(' || c == '[' || c == '{' || c == '<' then depth + 1
          else if c == ')' || c == ']' || c == '}' || c == '>' then depth - 1
          else depth
        (ps, c :: cur, depth))
    ([], [], 0)
  if fin.2.1.isEmpty then fin.1 else fin.1 ++ [pyStrip fin.2.1.reverse]

/-- One parameter of the signature: strip; skip if empty; split at the first
colon into name and type when present. -/
def mkParam (p0 : Str) : Option Param :=
  let p := pyStrip p0
  if p.isEmpty then none
  else if p.contains ':' then
    let n := p.takeWhile (fun c => c != ':')
    some { name := some (pyStrip n), type := pyStrip (p.drop (n.length + 1)) }
  else some { name := none, type := p }

/-- Whether the text after the closing parenthesis completes the match:
either the end of the (stripped) signature, or an arrow followed by a
non-empty return-type group (greedy whitespace handling as in `spanGroup`;
the group may not contain a newline). -/
def tailParse (t : Str) : Option (Option Str) :=
  if t.isEmpty then some none else
  let t1 := t.dropWhile pySpace
  if isPrefixSub (str "->") t1 then
    let v := t1.drop 2
    if v.isEmpty then none
    else
      let g := spanGroup v
      if g.contains '\n' then none else some (some g)
  else none

/-- The lazy parameter group: scan for the first closing parenthesis whose
tail completes the match; the group may not cross a newline.  Returns the
group (accumulated reversed in `acc`) and the optional return-type group. -/
def scanParen (acc : Str) : Str → Option (Str × Option Str)
  | [] => none
  | c :: rest =>
    if c == ')' then
      match tailParse rest with
      | some g4 => some (acc.reverse, g4)
      | none => scanParen (c :: acc) rest
    else if c == '\n' then none
    else scanParen (c :: acc) rest

/-- extractor_v2 `parse_function_signature`: match
`lowercase_ns::lowercase_name(params) [-> return_type]` against the stripped
signature; no match yields `none`.  The greedy `[a-z_]+` groups admit no
backtracking (`:` and `(` are not in the class), so each group is the maximal
run and the following literal must match immediately. -/
def parse_function_signature (signature : Str) : Option FunctionSignature :=
  let s := pyStrip signature
  let p1 := s.takeWhile isLowerUnd
  if p1.isEmpty then none else
  let r1 := s.drop p1.length
  if isPrefixSub (str "::") r1 then
    let r2 := r1.drop 2
    let p2 := r2.takeWhile isLowerUnd
    if p2.isEmpty then none else
    match r2.drop p2.length with
    | '(' :: r4 =>
      match scanParen [] r4 with
      | some (g3, g4) =>
        let params := if g3.isEmpty then [] else (split_params g3).filterMap mkParam
        some { raw := signature, nspace := p1, function := p2,
               parameters := params, return_type := g4.map pyStrip }
      | none => none
    | _ => none
  else none

/-- converter_v3 `_compress_signature` (identical in converter_final): the
concatenated compressed parameter types, a `>`, and the compressed return
type (`*` when absent or empty, matching Python truthiness of the field). -/
def compress_signature (sig : FunctionSignature) : Str :=
  let pPart :=
    if sig.parameters.isEmpty then []
    else (sig.parameters.map (fun p => compress_type p.type)).flatten
  let rPart :=
    match sig.return_type with
    | some rt => if rt.isEmpty then str "*" else compress_type rt
    | none => str "*"
  pPart ++ '>' :: rPart

/-! ### Supporting lemmas -/

theorem length_takeWhile_le' (p : Char → Bool) (l : Str) :
    (l.takeWhile p).length ≤ l.length := by
  induction l with
  | nil => simp [List.takeWhile]
  | cons c cs ih =>
    simp only [List.takeWhile]
    split
    · simpa using Nat.succ_le_succ ih
    · simp

theorem length_dropWhile_le' (p : Char → Bool) (l : Str) :
    (l.dropWhile p).length ≤ l.length := by
  induction l with
  | nil => simp [List.dropWhile]
  | cons c cs ih =>
    simp only [List.dropWhile]
    split
    · exact Nat.le_succ_of_le ih
    · simp

theorem greedyGroup_length {rest g : Str} (h : greedyGroup rest = some g) :
    g.length < rest.length := by
  unfold greedyGroup at h
  rcases hd : ((rest.takeWhile (fun c => c != '\n')).reverse).dropWhile (fun c => c != '>')
    with _ | ⟨x, g'⟩
  · rw [hd] at h; exact absurd h (by simp)
  · rw [hd] at h
    by_cases hg : g'.isEmpty = true
    · simp [hg] at h
    · simp [hg] at h
      have h1 : (x :: g').length ≤ (rest.takeWhile (fun c => c != '\n')).reverse.length := by
        rw [← hd]; exact length_dropWhile_le' _ _
      have h2 : (rest.takeWhile (fun c => c != '\n')).length ≤ rest.length :=
        length_takeWhile_le' _ _
      simp only [List.length_cons, List.length_reverse] at h1
      rw [← h]
      simp only [List.length_reverse]
      omega

theorem searchParam_length (lit : Str) :
    ∀ t g, searchParam lit t = some g → g.length < t.length := by
  intro t
  induction t with
  | nil => intro g h; exact absurd h (by simp [searchParam])
  | cons c rest ih =>
    intro g h
    unfold searchParam at h
    by_cases hp : isPrefixSub lit (c :: rest)
    · rw [if_pos hp] at h
      rcases hg : greedyGroup ((c :: rest).drop lit.length) with _ | g'
      · rw [hg] at h
        have := ih g h
        simpa using Nat.lt_succ_of_lt this
      · rw [hg] at h
        have h1 := greedyGroup_length hg
        have h2 : ((c :: rest).drop lit.length).length ≤ (c :: rest).length := by
          simp only [List.length_drop]; omega
        injection h with h'
        subst h'
        omega
    · rw [if_neg hp] at h
      have := ih g h
      simpa using Nat.lt_succ_of_lt this

theorem pyLower_length (t : Str) : (pyLower t).length = t.length := by
  simp [pyLower]

theorem arrayInner_length {t inner : Str} (h : arrayInner (pyLower t) = some inner) :
    inner.length < t.length := by
  unfold arrayInner at h
  split at h
  · have := searchParam_length _ _ _ h
    rwa [pyLower_length] at this
  · exact absurd h (by simp)

theorem optionInner_length {t inner : Str} (h : optionInner (pyLower t) = some inner) :
    inner.length < t.length := by
  unfold optionInner at h
  split at h
  · have := searchParam_length _ _ _ h
    rwa [pyLower_length] at this
  · exact absurd h (by simp)

/-- The fuel of `ctFuel` is irrelevant once above the length of the string. -/
theorem ctFuel_congr :
    ∀ n m (t : Str), t.length < n → t.length < m → ctFuel n t = ctFuel m t := by
  intro n
  induction n with
  | zero => intro m t h1 _; omega
  | succ k ih =>
    intro m t h1 h2
    cases m with
    | zero => omega
    | succ j =>
      show ctFuel (k + 1) t = ctFuel (j + 1) t
      simp only [ctFuel]
      by_cases he : t.isEmpty
      · simp [he]
      · simp only [he, Bool.false_eq_true, if_false]
        rcases ha : arrayInner (pyLower t) with _ | inner
        · rcases ho : optionInner (pyLower t) with _ | inner
          · rfl
          · have hlen := optionInner_length ho
            have heq : ctFuel k inner = ctFuel j inner := ih j inner (by omega) (by omega)
            simp [heq]
        · have hlen := arrayInner_length ha
          have heq : ctFuel k inner = ctFuel j inner := ih j inner (by omega) (by omega)
          simp [heq]

/-- The recursion equation of `compress_type`, exactly mirroring the Python
function body. -/
theorem compress_type_eq (t : Str) :
    compress_type t =
      if t.isEmpty then str "*" else
      match arrayInner (pyLower t) with
      | some inner => str "a" ++ compress_type inner
      | none =>
        match optionInner (pyLower t) with
        | some inner => str "?" ++ compress_type inner
        | none => (lookupType (pyLower t)).getD (str "*") := by
  show ctFuel (t.length + 1) t = _
  simp only [ctFuel]
  by_cases he : t.isEmpty
  · simp [he]
  · simp only [he, Bool.false_eq_true, if_false]
    rcases ha : arrayInner (pyLower t) with _ | inner
    · rcases ho : optionInner (pyLower t) with _ | inner
      · rfl
      · have hlen := optionInner_length ho
        have heq : ctFuel t.length inner = ctFuel (inner.length + 1) inner :=
          ctFuel_congr _ _ _ (by omega) (by omega)
        show _ = str "?" ++ compress_type inner
        simp [heq, compress_type]
    · have hlen := arrayInner_length ha
      have heq : ctFuel t.length inner = ctFuel (inner.length + 1) inner :=
        ctFuel_congr _ _ _ (by omega) (by omega)
      show _ = str "a" ++ compress_type inner
      simp [heq, compress_type]

theorem pyLowerChar_idem (c : Char) : pyLowerChar (pyLowerChar c) = pyLowerChar c := by
  rcases h : lowerTable.find? (fun p => p.1 == c) with _ | p
  · have hc : pyLowerChar c = c := by unfold pyLowerChar; rw [h]
    rw [hc]; exact hc
  · have hc : pyLowerChar c = p.2 := by unfold pyLowerChar; rw [h]
    have hp : p ∈ lowerTable := List.mem_of_find?_eq_some h
    have key : ∀ q ∈ lowerTable, lowerTable.find? (fun r => r.1 == q.2) = none := by decide
    rw [hc]
    unfold pyLowerChar
    rw [key p hp]

theorem pyLowerChar_ne_nl {c : Char} (h : c ≠ '\n') : pyLowerChar c ≠ '\n' := by
  rcases hf : lowerTable.find? (fun p => p.1 == c) with _ | p
  · have hc : pyLowerChar c = c := by unfold pyLowerChar; rw [hf]
    rwa [hc]
  · have hc : pyLowerChar c = p.2 := by unfold pyLowerChar; rw [hf]
    have hp : p ∈ lowerTable := List.mem_of_find?_eq_some hf
    have key : ∀ q ∈ lowerTable, q.2 ≠ '\n' := by decide
    rw [hc]
    exact key p hp

theorem pyLower_idem (t : Str) : pyLower (pyLower t) = pyLower t := by
  simp only [pyLower, List.map_map]
  exact List.map_congr_left (fun c _ => pyLowerChar_idem c)

theorem compress_type_pyLower (t : Str) : compress_type (pyLower t) = compress_type t := by
  rw [compress_type_eq, compress_type_eq t]
  have h1 : (pyLower t).isEmpty = t.isEmpty := by cases t <;> rfl
  rw [h1, pyLower_idem]

theorem isPrefixSub_append (p r : Str) : isPrefixSub p (p ++ r) = true := by
  induction p with
  | nil => rfl
  | cons a as ih => simpa [isPrefixSub] using ih

theorem takeWhile_all {p : Char → Bool} :
    ∀ {l : Str}, (∀ c ∈ l, p c = true) → l.takeWhile p = l := by
  intro l
  induction l with
  | nil => intro _; rfl
  | cons c cs ih =>
    intro h
    rw [List.takeWhile_cons, h c (by simp)]
    simpa using ih (fun d hd => h d (by simp [hd]))

/-- `re.search` of the parametrized pattern on a well-formed instance
(`lit ++ T ++ ">"` with `T` non-empty and newline-free) captures exactly `T`. -/
theorem greedyGroup_wellformed (T : Str) (hT : T ≠ [])
    (hnl : ∀ c ∈ T, c ≠ '\n') :
    greedyGroup (T ++ [ '>' ]) = some T := by
  have hrun : (T ++ [ '>' ]).takeWhile (fun c => c != '\n') = T ++ [ '>' ] := by
    refine takeWhile_all ?_
    intro c hc
    rcases List.mem_append.1 hc with hc | hc
    · simpa using hnl c hc
    · simp at hc; simp [hc]
  have hne : T.reverse.isEmpty = false := by
    rcases T with _ | _
    · exact absurd rfl hT
    · simp
  unfold greedyGroup
  rw [hrun]
  have hrev : (T ++ [ '>' ]).reverse = '>' :: T.reverse := by simp
  rw [hrev]
  rw [List.dropWhile_cons]
  simp only [bne_self_eq_false, Bool.false_eq_true, if_false]
  rw [hne]
  simp

theorem searchParam_wellformed (lit T : Str) (hlit : lit ≠ []) (hT : T ≠ [])
    (hnl : ∀ c ∈ T, c ≠ '\n') :
    searchParam lit (lit ++ T ++ [ '>' ]) = some T := by
  rcases lit with _ | ⟨l0, lit'⟩
  · exact absurd rfl hlit
  · have hshape : (l0 :: lit') ++ T ++ [ '>' ] = l0 :: (lit' ++ (T ++ [ '>' ])) := by
      simp
    rw [hshape]
    unfold searchParam
    rw [if_pos]
    · have hdrop :
          ((l0 :: (lit' ++ (T ++ [ '>' ]))).drop (l0 :: lit').length) = T ++ [ '>' ] := by
        simp
      rw [hdrop, greedyGroup_wellformed T hT hnl]
    · have hr : l0 :: (lit' ++ (T ++ [ '>' ])) = (l0 :: lit') ++ (T ++ [ '>' ]) := by simp
      rw [hr]
      exact isPrefixSub_append _ _

theorem pyLower_append (a b : Str) : pyLower (a ++ b) = pyLower a ++ pyLower b := by
  simp [pyLower]

theorem pyLower_ne_nil {T : Str} (h : T ≠ []) : pyLower T ≠ [] := by
  rcases T with _ | _
  · exact absurd rfl h
  · simp [pyLower]

theorem mem_pyLower_ne_nl {T : Str} (hnl : '\n' ∉ T) :
    ∀ c ∈ pyLower T, c ≠ '\n' := by
  intro c hc
  rcases List.mem_map.1 hc with ⟨d, hd, rfl⟩
  exact pyLowerChar_ne_nl (fun h => hnl (h ▸ hd))

theorem isPrefixSub_cons_ne {a b : Char} {as bs : Str} (h : a ≠ b) :
    isPrefixSub (a :: as) (b :: bs) = false := by
  simp [isPrefixSub, h]

/-- The fall-through branch of `compress_type`: a type neither of whose
lowercase forms starts one of the parametrized patterns, and that is absent
from the table, compresses to the wildcard. -/
theorem compress_type_fallback (s : Str)
    (h1 : startsWithS (str "array<") (pyLower s) = false)
    (h2 : startsWithS (str "option<") (pyLower s) = false)
    (h3 : lookupType (pyLower s) = none) :
    compress_type s = str "*" := by
  rw [compress_type_eq]
  by_cases he : s.isEmpty
  · simp [he]
  · have ha : arrayInner (pyLower s) = none := by simp [arrayInner, h1]
    have ho : optionInner (pyLower s) = none := by simp [optionInner, h2]
    simp [he, ha, ho, h3]

theorem compress_type_array (T : Str) (hT : T ≠ []) (hnl : '\n' ∉ T) :
    compress_type (str "array<" ++ T ++ str ">") = str "a" ++ compress_type T := by
  have hlow : pyLower (str "array<" ++ T ++ str ">")
      = str "array<" ++ pyLower T ++ [ '>' ] := by
    rw [pyLower_append, pyLower_append]
    have ha : pyLower (str "array<") = str "array<" := by decide
    have hb : pyLower (str ">") = [ '>' ] := by decide
    rw [ha, hb]
  have hpre : startsWithS (str "array<") (str "array<" ++ pyLower T ++ [ '>' ]) = true := by
    show isPrefixSub (str "array<") (str "array<" ++ pyLower T ++ [ '>' ]) = true
    rw [List.append_assoc]
    exact isPrefixSub_append _ _
  have ha : arrayInner (pyLower (str "array<" ++ T ++ str ">")) = some (pyLower T) := by
    rw [hlow]
    unfold arrayInner
    rw [if_pos hpre]
    exact searchParam_wellformed _ _ (by decide) (pyLower_ne_nil hT) (mem_pyLower_ne_nl hnl)
  have hne : (str "array<" ++ T ++ str ">").isEmpty = false := rfl
  rw [compress_type_eq, hne]
  simp only [Bool.false_eq_true, if_false]
  rw [ha]
  show str "a" ++ compress_type (pyLower T) = str "a" ++ compress_type T
  rw [compress_type_pyLower]

theorem compress_type_option (T : Str) (hT : T ≠ []) (hnl : '\n' ∉ T) :
    compress_type (str "option<" ++ T ++ str ">") = str "?" ++ compress_type T := by
  have hlow : pyLower (str "option<" ++ T ++ str ">")
      = str "option<" ++ pyLower T ++ [ '>' ] := by
    rw [pyLower_append, pyLower_append]
    have ha : pyLower (str "option<") = str "option<" := by decide
    have hb : pyLower (str ">") = [ '>' ] := by decide
    rw [ha, hb]
  have hshape : str "option<" ++ pyLower T ++ [ '>' ]
      = 'o' :: (str "ption<" ++ pyLower T ++ [ '>' ]) := rfl
  have hpre : startsWithS (str "option<") (str "option<" ++ pyLower T ++ [ '>' ]) = true := by
    show isPrefixSub (str "option<") (str "option<" ++ pyLower T ++ [ '>' ]) = true
    rw [List.append_assoc]
    exact isPrefixSub_append _ _
  have hnota : startsWithS (str "array<") (str "option<" ++ pyLower T ++ [ '>' ]) = false := by
    show isPrefixSub (str "array<") (str "option<" ++ pyLower T ++ [ '>' ]) = false
    rw [hshape]
    exact isPrefixSub_cons_ne (by decide)
  have ha : arrayInner (pyLower (str "option<" ++ T ++ str ">")) = none := by
    rw [hlow]
    unfold arrayInner
    rw [hnota]
    rfl
  have ho : optionInner (pyLower (str "option<" ++ T ++ str ">")) = some (pyLower T) := by
    rw [hlow]
    unfold optionInner
    rw [if_pos hpre]
    exact searchParam_wellformed _ _ (by decide) (pyLower_ne_nil hT) (mem_pyLower_ne_nl hnl)
  have hne : (str "option<" ++ T ++ str ">").isEmpty = false := rfl
  rw [compress_type_eq, hne]
  simp only [Bool.false_eq_true, if_false]
  rw [ha, ho]
  show str "?" ++ compress_type (pyLower T) = str "?" ++ compress_type T
  rw [compress_type_pyLower]

/-! ### Claim theorems -/

/-- C3: TypeCompressor's encoding satisfies the recursive rules: encoding
"array<T>" gives "a" followed by the encoding of T, encoding "option<T>"
gives "?" followed by the encoding of T (for a type string T, i.e. non-empty
and newline-free), and a type string that is not in the 16-entry table and
does not match either parametrized form encodes to "*"; in particular
"array<option<int>>" encodes to "a?i". -/
theorem C3_type_compressor_rules :
    (∀ T : Str, T ≠ [] → '\n' ∉ T →
        compress_type (str "array<" ++ T ++ str ">") = str "a" ++ compress_type T) ∧
    (∀ T : Str, T ≠ [] → '\n' ∉ T →
        compress_type (str "option<" ++ T ++ str ">") = str "?" ++ compress_type T) ∧
    (∀ s : Str, startsWithS (str "array<") (pyLower s) = false →
        startsWithS (str "option<") (pyLower s) = false →
        lookupType (pyLower s) = none → compress_type s = str "*") ∧
    compress_type (str "array<option<int>>") = str "a?i" :=
  ⟨compress_type_array, compress_type_option, compress_type_fallback, by decide⟩

/-- Witness for C3 at concrete inputs: the array rule applied to T = "int",
the option rule applied to T = "int", and the fallback applied to "vector". -/
theorem C3_type_compressor_rules_witness :
    compress_type (str "array<int>") = str "a" ++ compress_type (str "int") ∧
    compress_type (str "option<int>") = str "?" ++ compress_type (str "int") ∧
    compress_type (str "vector") = str "*" :=
  ⟨C3_type_compressor_rules.1 (str "int") (by decide) (by decide),
   C3_type_compressor_rules.2.1 (str "int") (by decide) (by decide),
   C3_type_compressor_rules.2.2.1 (str "vector") (by decide) (by decide) (by decide)⟩

/-- C10: the in-table type "any", the empty string, and every out-of-table
non-parametrized type string all encode to the same code "*" (so the encoded
form cannot distinguish a declared "any" from an unknown or missing type);
the table itself maps "any" to "*". -/
theorem C10_wildcard_collapse :
    compress_type (str "any") = str "*" ∧
    compress_type [] = str "*" ∧
    lookupType (str "any") = some (str "*") ∧
    (∀ s : Str, startsWithS (str "array<") (pyLower s) = false →
        startsWithS (str "option<") (pyLower s) = false →
        lookupType (pyLower s) = none → compress_type s = str "*") :=
  ⟨by decide, by decide, by decide, compress_type_fallback⟩

/-- Witness for C10: the out-of-table branch applied to the concrete type
string "unknown_t". -/
theorem C10_wildcard_collapse_witness :
    compress_type (str "unknown_t") = str "*" :=
  C10_wildcard_collapse.2.2.2 (str "unknown_t") (by decide) (by decide) (by decide)

/-- C6: parsing "array::add(array, value) -> array" yields namespace
"array", function name "add", the ordered parameter list with bare types
"array" and "value", and return type "array"; compressing that parsed
signature for the ultra tier yields "av>a". -/
theorem C6_signature_parse_and_compress :
    parse_function_signature (str "array::add(array, value) -> array") =
      some { raw := str "array::add(array, value) -> array",
             nspace := str "array", function := str "add",
             parameters := [{ name := none, type := str "array" },
                            { name := none, type := str "value" }],
             return_type := some (str "array") } ∧
    (parse_function_signature (str "array::add(array, value) -> array")).map
        compress_signature = some (str "av>a") := by
  constructor
  · decide
  · decide

/-- C1 (violated by the code): the serialized keyword/variable lists of the
full tier (converter_final.create_full_schema) and the enhanced tier
(converter_v2.convert_statements) are produced by `list(set)` with no
sorting, i.e. in the runtime's hash-dependent set-iteration order.  Two
iteration orders that are both enumerations (permutations) of the same set
contents produce different output records for the same input statement, so
output is not byte-identical across runs. -/
theorem C1_hash_order_dependence :
    ∃ e1 e2 : List Str → List Str,
      (∀ s, (e1 s).Perm s) ∧ (∀ s, (e2 s).Perm s) ∧
      fullStmtEntry e1 { stx := [str "SELECT @fields FROM @targets"] } ≠
        fullStmtEntry e2 { stx := [str "SELECT @fields FROM @targets"] } ∧
      enhancedStmtEntry e1 { stx := [str "SELECT @fields FROM @targets"] } ≠
        enhancedStmtEntry e2 { stx := [str "SELECT @fields FROM @targets"] } := by
  refine ⟨id, List.reverse, fun s => List.Perm.refl s, fun s => List.reverse_perm s, ?_, ?_⟩
  · decide
  · decide

/-- The `essential` loop keeps a list of at most 3 pairwise-distinct
candidates forming a sublist (hence a subsequence in encounter order) of its
input. -/
theorem essentialLoop_spec (ks : List Str) :
    (essentialLoop ks).length ≤ 3 ∧ (essentialLoop ks).Nodup ∧
      List.Sublist (essentialLoop ks) ks := by
  have main :
      ∀ (ks : List Str) (ess : List Str), ess.Nodup → ess.length ≤ 3 →
        ∃ t, ks.foldl
            (fun ess k =>
              if !ess.contains k && decide (ess.length < 3) then ess ++ [k] else ess)
            ess = ess ++ t ∧
          List.Sublist t ks ∧ (ess ++ t).Nodup ∧ (ess ++ t).length ≤ 3 := by
    intro ks
    induction ks with
    | nil =>
      intro ess h1 h2
      exact ⟨[], by simp, by simp, by simpa using h1, by simpa using h2⟩
    | cons k ks ih =>
      intro ess h1 h2
      rw [List.foldl_cons]
      by_cases hc : !ess.contains k && decide (ess.length < 3)
      · rw [if_pos hc]
        rw [Bool.and_eq_true] at hc
        obtain ⟨hc1, hc2⟩ := hc
        have hk : k ∉ ess := by
          intro hmem
          have h1 : ess.contains k = true := by
            simpa [List.contains] using List.elem_iff.mpr hmem
          rw [h1] at hc1
          simp at hc1
        have hlt : ess.length < 3 := by simpa using hc2
        have hnd : (ess ++ [k]).Nodup := by
          simp [List.nodup_append, h1, hk]
        have hln : (ess ++ [k]).length ≤ 3 := by
          simp only [List.length_append, List.length_cons, List.length_nil]
          omega
        rcases ih (ess ++ [k]) hnd hln with ⟨t, heq, hsub, hnd2, hln2⟩
        refine ⟨k :: t, ?_, ?_, ?_, ?_⟩
        · rw [heq]; simp
        · exact List.Sublist.cons₂ k hsub
        · simpa using hnd2
        · simpa using hln2
      · rw [if_neg hc]
        rcases ih ess h1 h2 with ⟨t, heq, hsub, hnd2, hln2⟩
        exact ⟨t, heq, List.Sublist.cons k hsub, hnd2, hln2⟩
  rcases main ks [] (by simp) (by simp) with ⟨t, heq, hsub, hnd, hln⟩
  have : essentialLoop ks = t := by simpa [essentialLoop] using heq
  rw [this]
  exact ⟨by simpa using hln, by simpa using hnd, hsub⟩

/-- C2 counterexample: for the statement whose first syntax block is
"FOR SELECT\nFOR UPDATE", converter_final's ultra-tier keyword list (the
`k` field of create_compressed_schema) is ["FOR", "SELECT", "FOR"], which
contains a duplicate — the claim's "contains no duplicates" fails on
converter_final. -/
theorem C2_counterexample :
    finalCompressedK { stx := [str "FOR SELECT\nFOR UPDATE"] } =
        some [str "FOR", str "SELECT", str "FOR"] ∧
      ¬ [str "FOR", str "SELECT", str "FOR"].Nodup := by
  constructor
  · decide
  · decide

/-- C2 (amended): for a statement with at least one syntax block, the
converter_v3 ultra-tier keyword list has at most 3 keywords, drawn only from
the keyword candidates of the first 3 lines of the first syntax block, in
encounter order (a sublist of the candidate sequence), with no duplicates;
converter_final's ultra-tier list is instead the first 3 raw candidates of
those lines in encounter order (a sublist of length at most 3) and is not
deduplicated. -/
theorem C2_ultra_keywords (d : StmtData) (s0 : Str) (rest : List Str)
    (h : d.stx = s0 :: rest) :
    compress_statement d = some (essentialLoop (v3Keywords s0)) ∧
    (essentialLoop (v3Keywords s0)).length ≤ 3 ∧
    (essentialLoop (v3Keywords s0)).Nodup ∧
    List.Sublist (essentialLoop (v3Keywords s0)) (v3Keywords s0) ∧
    finalCompressedK d = some ((v3Keywords s0).take 3) ∧
    ((v3Keywords s0).take 3).length ≤ 3 ∧
    List.Sublist ((v3Keywords s0).take 3) (v3Keywords s0) := by
  rcases essentialLoop_spec (v3Keywords s0) with ⟨h1, h2, h3⟩
  refine ⟨by simp [compress_statement, h], h1, h2, h3,
    by simp [finalCompressedK, h], ?_, List.take_sublist _ _⟩
  simp [List.length_take]

/-- Witness for C2 (amended) at a concrete statement. -/
theorem C2_ultra_keywords_witness :
    compress_statement { stx := [str "DEFINE TABLE @name"] } =
        some (essentialLoop (v3Keywords (str "DEFINE TABLE @name"))) ∧
    (essentialLoop (v3Keywords (str "DEFINE TABLE @name"))).length ≤ 3 ∧
    (essentialLoop (v3Keywords (str "DEFINE TABLE @name"))).Nodup ∧
    List.Sublist (essentialLoop (v3Keywords (str "DEFINE TABLE @name")))
      (v3Keywords (str "DEFINE TABLE @name")) ∧
    finalCompressedK { stx := [str "DEFINE TABLE @name"] } =
        some ((v3Keywords (str "DEFINE TABLE @name")).take 3) ∧
    ((v3Keywords (str "DEFINE TABLE @name")).take 3).length ≤ 3 ∧
    List.Sublist ((v3Keywords (str "DEFINE TABLE @name")).take 3)
      (v3Keywords (str "DEFINE TABLE @name")) :=
  C2_ultra_keywords _ (str "DEFINE TABLE @name") [] rfl

/-- C7: a statement entry with exactly 2 (distinct) syntax blocks yields a
`variants` record holding exactly the 2 per-block conversions, in block
order, each computed independently from its own block only, with the
metadata attached once at the parent level. -/
theorem C7_two_variants (b1 b2 : Str) (md : Metadata) (hne : b1 ≠ b2) :
    process_statement [b1, b2] md =
      .multi [convert_statement_block b1, convert_statement_block b2] md := by
  simp [process_statement]

/-- Witness for C7 at two concrete distinct blocks. -/
theorem C7_two_variants_witness :
    process_statement [str "SELECT @f", str "DELETE @t"] {} =
      .multi [convert_statement_block (str "SELECT @f"),
              convert_statement_block (str "DELETE @t")] {} :=
  C7_two_variants _ _ _ (by decide)

/-- C8: a statement entry whose syntax-block list is absent or empty (both
modelled by `stx = []`) contributes nothing to any output tier: the loop
steps of converter_final's full and compressed tiers, converter_v2's
enhanced tier, and converter_v3's ultra tier all leave the accumulated
output unchanged, and converter_v3's `compress_statement` returns `None`. -/
theorem C8_empty_skipped (enum : List Str → List Str) (name : Str) (d : StmtData)
    (acc1 : List (Str × FullStmtEntry)) (acc2 : List (Str × List Str))
    (acc3 : List (Str × EnhancedStmtEntry)) (acc4 : List (Str × List Str))
    (h : d.stx = []) :
    fullStmtStep enum acc1 (name, d) = acc1 ∧
    compressedStmtStep acc2 (name, d) = acc2 ∧
    enhancedStmtStep enum acc3 (name, d) = acc3 ∧
    v3StmtStep acc4 (name, d) = acc4 ∧
    compress_statement d = none := by
  refine ⟨?_, ?_, ?_, ?_, ?_⟩ <;>
    simp [fullStmtStep, compressedStmtStep, enhancedStmtStep, v3StmtStep,
      fullStmtEntry, finalCompressedK, enhancedStmtEntry, compress_statement, h]

/-- Witness for C8 at a concrete empty entry. -/
theorem C8_empty_skipped_witness :
    fullStmtStep id [] (str "select", { stx := [] }) = [] ∧
    compressedStmtStep [] (str "select", { stx := [] }) = [] ∧
    enhancedStmtStep id [] (str "select", { stx := [] }) = [] ∧
    v3StmtStep [] (str "select", { stx := [] }) = [] ∧
    compress_statement { stx := [] } = none :=
  C8_empty_skipped id (str "select") { stx := [] } [] [] [] [] rfl

/-! ### Lemmas for the grammar-line parser claims -/

theorem isPrefixSub_iff (n : Str) :
    ∀ h : Str, isPrefixSub n h = true ↔ ∃ t, h = n ++ t := by
  induction n with
  | nil =>
    intro h
    simp [isPrefixSub]
  | cons a as ih =>
    intro h
    cases h with
    | nil =>
      simp [isPrefixSub]
    | cons b bs =>
      rw [isPrefixSub]
      rw [Bool.and_eq_true]
      constructor
      · rintro ⟨h1, h2⟩
        have hab : a = b := by simpa using h1
        rcases (ih bs).1 h2 with ⟨t, rfl⟩
        exact ⟨t, by rw [hab]; rfl⟩
      · rintro ⟨t, ht⟩
        injection ht with h1 h2
        subst h1
        exact ⟨by simp, (ih bs).2 ⟨t, h2⟩⟩

theorem isSubstr_iff (n : Str) :
    ∀ h : Str, isSubstr n h = true ↔ ∃ a b, h = a ++ n ++ b := by
  intro h
  induction h with
  | nil =>
    rw [isSubstr, isPrefixSub_iff]
    constructor
    · rintro ⟨t, ht⟩
      exact ⟨[], t, by simpa using ht⟩
    · rintro ⟨a, b, hab⟩
      have h0 : (a ++ n) ++ b = [] := by simpa using hab.symm
      rcases List.append_eq_nil.1 h0 with ⟨h1, _⟩
      rcases List.append_eq_nil.1 h1 with ⟨_, h4⟩
      exact ⟨[], by simp [h4]⟩
  | cons c hs ih =>
    rw [isSubstr]
    rw [Bool.or_eq_true]
    constructor
    · rintro (h1 | h1)
      · rcases (isPrefixSub_iff n _).1 h1 with ⟨t, ht⟩
        exact ⟨[], t, by simpa using ht⟩
      · rcases ih.1 h1 with ⟨a, b, hab⟩
        exact ⟨c :: a, b, by simp [hab]⟩
    · rintro ⟨a, b, hab⟩
      cases a with
      | nil =>
        exact Or.inl ((isPrefixSub_iff n _).2 ⟨b, by simpa using hab⟩)
      | cons a0 as =>
        injection hab with h1 h2
        exact Or.inr (ih.2 ⟨as, b, h2⟩)

theorem applySpan_keywords (r : ParsedLine) (m : Str) :
    (applySpan r m).keywords = r.keywords := by
  unfold applySpan
  by_cases h1 : m.contains '|'
  · rw [if_pos h1]
    show (if (spanChoices m).isEmpty then r
      else { r with optional_choices := some (spanChoices m) }).keywords = r.keywords
    by_cases h2 : (spanChoices m).isEmpty
    · rw [if_pos h2]
    · rw [if_neg h2]
  · rw [if_neg h1]
    by_cases h2 : startsAt m
    · rw [if_pos h2]
    · rw [if_neg h2]

theorem foldl_applySpan_keywords (spans : List Str) :
    ∀ r : ParsedLine, (spans.foldl applySpan r).keywords = r.keywords := by
  induction spans with
  | nil => intro r; rfl
  | cons m ms ih =>
    intro r
    rw [List.foldl_cons, ih, applySpan_keywords]

/-- The `keywords` entry of `parse_bnf_line` (with the absent key read as the
empty list) is exactly the uppercase candidates surviving the same-line
optional-span substring filter. -/
theorem parse_bnf_line_keywords (line : Str) :
    (parse_bnf_line line).keywords.getD [] =
      (findUpper2 (pyStrip line)).filter
        (fun k => !((findSpans (pyStrip line)).any (fun opt => isSubstr k opt))) := by
  unfold parse_bnf_line
  by_cases hL : (pyStrip line).isEmpty
  · have hnil : pyStrip line = [] := by simpa using hL
    rw [hnil]
    rfl
  · simp only [hL, Bool.false_eq_true, if_false]
    set L := pyStrip line
    set spans := findSpans L with hspans
    set filtered := (findUpper2 L).filter
      (fun k => !(spans.any (fun opt => isSubstr k opt))) with hfiltered
    by_cases hf : filtered.isEmpty
    · have hfe : filtered = [] := by simpa using hf
      rw [hfe]
      simp only [List.isEmpty_nil, if_true]
      split
      all_goals rw [foldl_applySpan_keywords]
      all_goals rfl
    · simp only [hf, Bool.false_eq_true, if_false]
      rfl

/-- C4: the grammar-line parser's keyword list contains exactly those
word-boundary-delimited uppercase runs of length at least 2 of the
(stripped) line whose text does not occur as a contiguous substring inside
any of the line's bracketed spans. -/
theorem C4_keyword_span_filter (line k : Str) :
    k ∈ (parse_bnf_line line).keywords.getD [] ↔
      (k ∈ findUpper2 (pyStrip line) ∧
        ∀ opt ∈ findSpans (pyStrip line), ¬ ∃ a b, opt = a ++ k ++ b) := by
  rw [parse_bnf_line_keywords, List.mem_filter]
  constructor
  · rintro ⟨h1, h2⟩
    refine ⟨h1, ?_⟩
    intro opt hopt hex
    have hsub : isSubstr k opt = true := (isSubstr_iff k opt).2 hex
    have : (findSpans (pyStrip line)).any (fun opt => isSubstr k opt) = true :=
      List.any_eq_true.2 ⟨opt, hopt, hsub⟩
    rw [this] at h2
    simp at h2
  · rintro ⟨h1, h2⟩
    refine ⟨h1, ?_⟩
    have : (findSpans (pyStrip line)).any (fun opt => isSubstr k opt) = false := by
      rw [List.any_eq_false]
      intro opt hopt
      intro hsub
      exact h2 opt hopt ((isSubstr_iff k opt).1 hsub)
    rw [this]
    rfl

/-- Witness for C4 at a concrete line: for "KEEP [DROP IT] DROP" the filter
keeps "KEEP" and drops "DROP" and "IT" (both occur in the bracketed span). -/
theorem C4_keyword_span_filter_witness :
    (str "KEEP" ∈ (parse_bnf_line (str "KEEP [DROP IT] DROP")).keywords.getD [] ↔
      (str "KEEP" ∈ findUpper2 (pyStrip (str "KEEP [DROP IT] DROP")) ∧
        ∀ opt ∈ findSpans (pyStrip (str "KEEP [DROP IT] DROP")),
          ¬ ∃ a b, opt = a ++ str "KEEP" ++ b)) :=
  C4_keyword_span_filter (str "KEEP [DROP IT] DROP") (str "KEEP")

/-- C5: for every bracketed span containing a pipe, the parser records as
the optional choice group the stripped split pieces that are non-empty and
not `@`-prefixed, exactly when at least one such piece remains (otherwise
the previously recorded group, if any, is kept); membership in the choice
list is characterized by the split; and for the line "[A | B]" the recorded
optional choices are exactly ["A", "B"]. -/
theorem C5_choice_groups :
    (∀ (r : ParsedLine) (m : Str), m.contains '|' = true →
        (applySpan r m).optional_choices =
          if spanChoices m = [] then r.optional_choices else some (spanChoices m)) ∧
    (∀ (m c : Str), c ∈ spanChoices m ↔
        ∃ seg, seg ∈ pySplit '|' m ∧ c = pyStrip seg ∧ c ≠ [] ∧ startsAt c = false) ∧
    (parse_bnf_line (str "[A | B]")).optional_choices = some [str "A", str "B"] := by
  refine ⟨?_, ?_, by decide⟩
  · intro r m hm
    unfold applySpan
    rw [if_pos hm]
    by_cases hc : (spanChoices m).isEmpty
    · have : spanChoices m = [] := by simpa using hc
      rw [if_pos hc, this]
      simp
    · have hne : ¬ spanChoices m = [] := by simpa using hc
      rw [if_neg hc, if_neg hne]
  · intro m c
    unfold spanChoices
    rw [List.mem_filter]
    constructor
    · rintro ⟨h1, h2⟩
      rcases List.mem_map.1 h1 with ⟨seg, hseg, rfl⟩
      rw [Bool.and_eq_true] at h2
      refine ⟨seg, hseg, rfl, ?_, ?_⟩
      · have := h2.1
        simpa using this
      · have := h2.2
        simpa using this
    · rintro ⟨seg, hseg, rfl, h3, h4⟩
      refine ⟨List.mem_map.2 ⟨seg, hseg, rfl⟩, ?_⟩
      rw [Bool.and_eq_true]
      exact ⟨by simpa using h3, by simp [h4]⟩

/-- Witness for C5: the choice-group rule applied at a concrete span. -/
theorem C5_choice_groups_witness :
    (applySpan {} (str "A | B")).optional_choices =
      if spanChoices (str "A | B") = [] then ({} : ParsedLine).optional_choices
      else some (spanChoices (str "A | B")) :=
  C5_choice_groups.1 {} (str "A | B") (by decide)

/-! ### Lemmas for C9 -/

theorem wordRunsAux_ne_nil :
    ∀ (s : Str) (cur : Str), ∀ w ∈ wordRunsAux cur s, w ≠ [] := by
  intro s
  induction s with
  | nil =>
    intro cur w hw
    rw [wordRunsAux] at hw
    by_cases hc : cur.isEmpty
    · rw [if_pos hc] at hw
      simp at hw
    · rw [if_neg hc] at hw
      simp only [List.mem_singleton] at hw
      subst hw
      simpa using hc
  | cons c cs ih =>
    intro cur w hw
    rw [wordRunsAux] at hw
    by_cases h1 : isWordChar c
    · rw [if_pos h1] at hw
      exact ih _ w hw
    · rw [if_neg h1] at hw
      by_cases h2 : cur.isEmpty
      · rw [if_pos h2] at hw
        exact ih _ w hw
      · rw [if_neg h2] at hw
        rcases List.mem_cons.1 hw with rfl | hw
        · simpa using h2
        · exact ih _ w hw

theorem findUpper2_not_at {line w : Str} (hw : w ∈ findUpper2 line) :
    startsAt w = false := by
  rcases List.mem_filter.1 hw with ⟨hmem, hcond⟩
  rw [Bool.and_eq_true] at hcond
  have hne : w ≠ [] := wordRunsAux_ne_nil line [] w hmem
  cases w with
  | nil => exact absurd rfl hne
  | cons c cs =>
    have hup : isUpperAZ c = true := by
      have := (List.all_eq_true.1 hcond.1) c (by simp)
      simpa using this
    have hca : c ≠ '@' := by
      intro hceq
      rw [hceq] at hup
      simp [isUpperAZ] at hup
    show (c == '@') = false
    simpa using hca

theorem findUpperUnd_not_at {line w : Str} (hw : w ∈ findUpperUnd line) :
    startsAt w = false := by
  rcases List.mem_filter.1 hw with ⟨hmem, hcond⟩
  have hne : w ≠ [] := wordRunsAux_ne_nil line [] w hmem
  cases w with
  | nil => exact absurd rfl hne
  | cons c cs =>
    have hup : (isUpperAZ c || c == '_') = true := by
      have := (List.all_eq_true.1 hcond) c (by simp)
      simpa using this
    have hca : c ≠ '@' := by
      intro hceq
      rw [hceq] at hup
      simp [isUpperAZ] at hup
    show (c == '@') = false
    simpa using hca

/-- C9: the filter dropping keyword candidates that start with `@` is the
identity on the output of the uppercase keyword regexes: a match of
converter_v3/converter_final's uppercase pattern never starts with `@`, so
filtering it away changes nothing; likewise in converter_v2 the `@`
condition is redundant and only the length condition filters. -/
theorem C9_at_filter_identity :
    (∀ line : Str, (findUpper2 line).filter (fun w => !startsAt w) = findUpper2 line) ∧
    (∀ line : Str,
      (findUpperUnd line).filter (fun m => !startsAt m && decide (1 < m.length)) =
        (findUpperUnd line).filter (fun m => decide (1 < m.length))) := by
  constructor
  · intro line
    rw [List.filter_eq_self]
    intro w hw
    simp [findUpper2_not_at hw]
  · intro line
    apply List.filter_congr
    intro m hm
    simp [findUpperUnd_not_at hm]

/-- Witness for C9 at a concrete line. -/
theorem C9_at_filter_identity_witness :
    (findUpper2 (str "SELECT @x FROM")).filter (fun w => !startsAt w) =
      findUpper2 (str "SELECT @x FROM") :=
  C9_at_filter_identity.1 (str "SELECT @x FROM")

end Dali
